import Mathlib

/-!
Verification of the FluxHelmRelease values interpreter
(`cluster/kubernetes/resource/fluxhelmrelease.go`).

The Go code walks the `values` tree of a FluxHelmRelease resource looking
for container image declarations, reports them, and offers setters that
rewrite them in place.  We embed the tree as an association-list model of
Go's `map[string]interface{}` / `map[interface{}]interface{}` values, and
the in-place mutation of a sub-map as functional update of the enclosing
tree.  The external `image` package (`image.Ref`, `image.ParseRef`) is not
part of the sources, so it is modelled from the spec as a black box; the
interpreter definitions are parameterised by the parser so that the
theorems hold for any parser behaviour.
-/

set_option maxHeartbeats 1000000

/-- Keys of a mapping decoded from generic markup (Go
`map[interface{}]interface{}`): in practice strings, but any scalar may
occur; non-string scalar keys are abstracted by a numeric tag. -/
inductive AKey where
  | kstr (s : String)
  | kother (n : Nat)
deriving DecidableEq

mutual

/-- A dynamically typed value of a Values Tree (Go `interface{}`): a
string, a string-keyed nested mapping (structured-API origin, Go
`map[string]interface{}`), an arbitrary-keyed nested mapping
(generic-markup origin, Go `map[interface{}]interface{}`), or any other
scalar/list value, which the interpreter never inspects and which is
abstracted by a numeric tag. -/
inductive Value where
  | vstr (s : String)
  | vsmap (m : List (String × Value))
  | vamap (m : List (AKey × Value))
  | vother (n : Nat)

end

/-- A string-keyed mapping (Go `map[string]interface{}`), as an
association list: the list order models the map's (irrelevant) internal
order. -/
abbrev SMap := List (String × Value)

/-- An arbitrary-keyed mapping (Go `map[interface{}]interface{}`). -/
abbrev AMap := List (AKey × Value)

/-- Go map read `m[k]`: the value at key `k`, if present. -/
def slookup : SMap → String → Option Value
  | [], _ => none
  | (k, v) :: rest, key => if k = key then some v else slookup rest key

/-- Go map read `m[k]` for an arbitrary-keyed map. -/
def alookup : AMap → AKey → Option Value
  | [], _ => none
  | (k, v) :: rest, key => if k = key then some v else alookup rest key

/-- Go map write `m[k] = v`: replace the binding of `k` if present
(keeping its position), else append a new binding. -/
def setKey : SMap → String → Value → SMap
  | [], key, v => [(key, v)]
  | (k, w) :: rest, key, v =>
      if k = key then (key, v) :: rest else (k, w) :: setKey rest key v

/-- Go map write `m[k] = v` for an arbitrary-keyed map. -/
def asetKey : AMap → AKey → Value → AMap
  | [], key, v => [(key, v)]
  | (k, w) :: rest, key, v =>
      if k = key then (key, v) :: rest else (k, w) :: asetKey rest key v

/-- Modelled from the spec: the external `image.Ref` value — a repository
name (registry + path) and a free-form tag.  The `image` package is not
among the given sources; the spec treats it as a correct black box with
`parse(string) -> Ref | error`, `ref.String() -> "repo:tag"`. -/
structure Ref where
  name : String
  tag : String
deriving DecidableEq

/-- Modelled from the spec: `ref.String()`, rendering a reference back to
a combined `"repo:tag"` string (just the name when the tag is empty). -/
def refString (r : Ref) : String :=
  if r.tag = "" then r.name else r.name ++ ":" ++ r.tag

/-- Splits a character list at each colon (the shape of the external
parser's input grammar `repo[:tag]`). -/
def splitColons : List Char → List (List Char)
  | [] => [[]]
  | c :: rest =>
      let r := splitColons rest
      if c = ':' then [] :: r
      else
        match r with
        | [] => [[c]]
        | a :: t => (c :: a) :: t

/-- Modelled from the spec: the external `image.ParseRef`, constructing a
`Ref` from a combined `repo[:tag]` string; fails (returns `none`) on
invalid syntax such as an empty string, an empty name or tag part, or
more than one colon.  The interpreter theorems are parameterised over the
parser; this concrete model is used for witnesses. -/
def parseRef (s : String) : Option Ref :=
  match splitColons s.data with
  | [n] => if n.isEmpty then none else some ⟨String.mk n, ""⟩
  | [n, t] =>
      if n.isEmpty then none
      else if t.isEmpty then none
      else some ⟨String.mk n, String.mk t⟩
  | _ => none

/-- `ReleaseContainerName` from the source: the reserved container name
used when the whole release has one image declaration at the top level of
the values tree. -/
def ReleaseContainerName : String := "chart-image"

/-- `interpret_stringmap` from the source: tries to read an image
declaration out of a string-keyed mapping.  Returns the parsed reference
together with the setter; the Go setter mutates `m` in place, which we
model as returning the updated mapping.  `parse` stands for the external
`image.ParseRef`. -/
def interpret_stringmap (parse : String → Option Ref) (m : SMap) :
    Option (Ref × (Ref → SMap)) :=
  match slookup m "image" with
  | some (Value.vstr img) =>
      match parse img with
      | some imageRef =>
          match slookup m "tag" with
          | some (Value.vstr tagStr) =>
              some ({ imageRef with tag := tagStr },
                fun ref =>
                  setKey (setKey m "image" (Value.vstr ref.name)) "tag"
                    (Value.vstr ref.tag))
          | _ =>
              some (imageRef,
                fun ref => setKey m "image" (Value.vstr (refString ref)))
      | none => none
  | some (Value.vsmap img) =>
      match slookup img "repository" with
      | some (Value.vstr imgRepo) =>
          match slookup img "tag" with
          | some (Value.vstr imgTag) =>
              match parse (imgRepo ++ ":" ++ imgTag) with
              | some imgRef =>
                  some (imgRef,
                    fun ref =>
                      setKey m "image"
                        (Value.vsmap
                          (setKey (setKey img "repository" (Value.vstr ref.name))
                            "tag" (Value.vstr ref.tag))))
              | none => none
          | _ => none
      | _ => none
  | some (Value.vamap img) =>
      match alookup img (AKey.kstr "repository") with
      | some (Value.vstr imgRepo) =>
          match alookup img (AKey.kstr "tag") with
          | some (Value.vstr imgTag) =>
              match parse (imgRepo ++ ":" ++ imgTag) with
              | some imgRef =>
                  some (imgRef,
                    fun ref =>
                      setKey m "image"
                        (Value.vamap
                          (asetKey
                            (asetKey img (AKey.kstr "repository")
                              (Value.vstr ref.name))
                            (AKey.kstr "tag") (Value.vstr ref.tag))))
              | none => none
          | _ => none
      | _ => none
  | _ => none

/-- `interpret_anymap` from the source: the same interpretation for an
arbitrary-keyed mapping.  Note the source has no case for a string-keyed
inner `image` object here (only `map[interface{}]interface{}`). -/
def interpret_anymap (parse : String → Option Ref) (m : AMap) :
    Option (Ref × (Ref → AMap)) :=
  match alookup m (AKey.kstr "image") with
  | some (Value.vstr img) =>
      match parse img with
      | some imageRef =>
          match alookup m (AKey.kstr "tag") with
          | some (Value.vstr tagStr) =>
              some ({ imageRef with tag := tagStr },
                fun ref =>
                  asetKey (asetKey m (AKey.kstr "image") (Value.vstr ref.name))
                    (AKey.kstr "tag") (Value.vstr ref.tag))
          | _ =>
              some (imageRef,
                fun ref =>
                  asetKey m (AKey.kstr "image") (Value.vstr (refString ref)))
      | none => none
  | some (Value.vamap img) =>
      match alookup img (AKey.kstr "repository") with
      | some (Value.vstr imgRepo) =>
          match alookup img (AKey.kstr "tag") with
          | some (Value.vstr imgTag) =>
              match parse (imgRepo ++ ":" ++ imgTag) with
              | some imgRef =>
                  some (imgRef,
                    fun ref =>
                      asetKey m (AKey.kstr "image")
                        (Value.vamap
                          (asetKey
                            (asetKey img (AKey.kstr "repository")
                              (Value.vstr ref.name))
                            (AKey.kstr "tag") (Value.vstr ref.tag))))
              | none => none
          | _ => none
      | _ => none
  | _ => none

/-- Lexicographic comparison of character lists by code point, the order
Go's `sort.Strings` uses, modelled by structural recursion so that it
computes on concrete inputs. -/
def charsLe : List Char → List Char → Bool
  | [], _ => true
  | _ :: _, [] => false
  | a :: as, b :: bs =>
      if a.toNat < b.toNat then true
      else if b.toNat < a.toNat then false
      else charsLe as bs

/-- Lexicographic string comparison (the Go `sort.Strings` order). -/
def strLe (a b : String) : Bool := charsLe a.data b.data

instance strLeDecidable : DecidableRel fun a b : String => strLe a b = true :=
  fun a b => inferInstanceAs (Decidable (strLe a b = true))

/-- `sorted_keys` from the source: the map's keys, sorted, to give the
scan a stable order (Go `sort.Strings`). -/
def sorted_keys (values : SMap) : List String :=
  List.insertionSort (fun a b => strLe a b = true) (values.map Prod.fst)

/-- One declaration discovered by the scan: container name, parsed
reference, and the setter rewriting the whole top-level values tree. -/
abbrev Decl := String × Ref × (Ref → SMap)

/-- The sequence of declarations `FindFluxHelmReleaseContainers` visits,
in order: a direct-form match at the top level is the sole declaration
(under the reserved name) and pre-empts the per-key scan; otherwise each
top-level key, in sorted order, whose value is a mapping that interprets
as an image declaration contributes one declaration named by the key.  A
per-container setter mutates the inner map in place, which the enclosing
tree sees as an update at that key. -/
def scanDecls (parse : String → Option Ref) (values : SMap) : List Decl :=
  match interpret_stringmap parse values with
  | some (ref, setter) => [(ReleaseContainerName, ref, setter)]
  | none =>
      (sorted_keys values).filterMap fun k =>
        match slookup values k with
        | some (Value.vsmap m) =>
            (interpret_stringmap parse m).map fun p =>
              (k, p.1, fun r => setKey values k (Value.vsmap (p.2 r)))
        | some (Value.vamap m) =>
            (interpret_anymap parse m).map fun p =>
              (k, p.1, fun r => setKey values k (Value.vamap (p.2 r)))
        | _ => none

/-- `FindFluxHelmReleaseContainers` from the source.  The visitor is a Go
closure with side effects and an error result; we model it as a state
transformer returning the new state and an optional error.  The source
calls `visit(...)` discarding its result at every call site, and returns
`nil` on both paths, so the scan threads only the state and always
returns no error. -/
def FindFluxHelmReleaseContainers {σ ε : Type} (parse : String → Option Ref)
    (values : SMap)
    (visit : σ → String → Ref → (Ref → SMap) → σ × Option ε) (s0 : σ) :
    σ × Option ε :=
  ((scanDecls parse values).foldl (fun s d => (visit s d.1 d.2.1 d.2.2).1) s0,
    none)

/-- `Containers` from the source: runs the scan with a visitor that
collects each (name, reference) pair. -/
def Containers (parse : String → Option Ref) (values : SMap) :
    List (String × Ref) :=
  (FindFluxHelmReleaseContainers parse values
    (fun (s : List (String × Ref)) name ref _ =>
      (s ++ [(name, ref)], (none : Option Unit))) []).1

/-- `SetContainerImage` from the source: runs the scan with a visitor
that applies the setter of the declaration whose name matches, tracking
the (mutated-in-place) tree and a found flag; afterwards reports
not-found if no declaration matched.  Returns the resulting tree and the
optional error. -/
def SetContainerImage (parse : String → Option Ref) (values : SMap)
    (container : String) (ref : Ref) : SMap × Option String :=
  let r := FindFluxHelmReleaseContainers parse values
    (fun (s : SMap × Bool) name _ setter =>
      (if container = name then (setter ref, true) else s,
        (none : Option String)))
    (values, false)
  match r.2 with
  | some e => (r.1.1, some e)
  | none =>
      if r.1.2 then (r.1.1, none)
      else (r.1.1,
        some ("did not find container " ++ container ++ " in FluxHelmRelease"))

/-- A Go map has no duplicate keys; an association list models one when
its key list has no duplicates. -/
abbrev NodupKeys (m : SMap) : Prop := (m.map Prod.fst).Nodup

/-- The reference component of `interpret_stringmap`, as a function of
the mapping's `image` and `tag` fields alone (the setter component is
projected away). -/
def refOf_smap (parse : String → Option Ref) (imgv tagv : Option Value) :
    Option Ref :=
  match imgv with
  | some (Value.vstr img) =>
      match parse img with
      | some imageRef =>
          match tagv with
          | some (Value.vstr tagStr) => some { imageRef with tag := tagStr }
          | _ => some imageRef
      | none => none
  | some (Value.vsmap img) =>
      match slookup img "repository" with
      | some (Value.vstr imgRepo) =>
          match slookup img "tag" with
          | some (Value.vstr imgTag) => parse (imgRepo ++ ":" ++ imgTag)
          | _ => none
      | _ => none
  | some (Value.vamap img) =>
      match alookup img (AKey.kstr "repository") with
      | some (Value.vstr imgRepo) =>
          match alookup img (AKey.kstr "tag") with
          | some (Value.vstr imgTag) => parse (imgRepo ++ ":" ++ imgTag)
          | _ => none
      | _ => none
  | _ => none

/-- The reference component of `interpret_anymap`, as a function of the
mapping's `image` and `tag` fields alone. -/
def refOf_amap (parse : String → Option Ref) (imgv tagv : Option Value) :
    Option Ref :=
  match imgv with
  | some (Value.vstr img) =>
      match parse img with
      | some imageRef =>
          match tagv with
          | some (Value.vstr tagStr) => some { imageRef with tag := tagStr }
          | _ => some imageRef
      | none => none
  | some (Value.vamap img) =>
      match alookup img (AKey.kstr "repository") with
      | some (Value.vstr imgRepo) =>
          match alookup img (AKey.kstr "tag") with
          | some (Value.vstr imgTag) => parse (imgRepo ++ ":" ++ imgTag)
          | _ => none
      | _ => none
  | _ => none

/-- The (name, reference) pair the per-container scan produces at one
top-level key, as a function of the lookup function alone. -/
def containerOf (parse : String → Option Ref) (look : String → Option Value)
    (k : String) : Option (String × Ref) :=
  match look k with
  | some (Value.vsmap m) =>
      (refOf_smap parse (slookup m "image") (slookup m "tag")).map
        fun r => (k, r)
  | some (Value.vamap m) =>
      (refOf_amap parse (alookup m (AKey.kstr "image"))
          (alookup m (AKey.kstr "tag"))).map
        fun r => (k, r)
  | _ => none

/-- The container view, described purely in terms of the tree's lookup
function and its sorted key list. -/
def ContainersSpec (parse : String → Option Ref)
    (look : String → Option Value) (ks : List String) :
    List (String × Ref) :=
  match refOf_smap parse (look "image") (look "tag") with
  | some r => [(ReleaseContainerName, r)]
  | none => ks.filterMap (containerOf parse look)

/-- A direct-form tree that also carries a per-container-shaped sibling
key, used to witness that the direct form pre-empts the per-key scan. -/
def valsC2 : SMap :=
  [("image", Value.vstr "r:t"),
   ("db", Value.vsmap [("image", Value.vstr "x:y")])]

/-- The setter the direct form binds on `valsC2`. -/
def setterC2 : Ref → SMap :=
  fun ref => setKey valsC2 "image" (Value.vstr (refString ref))

/-- A tree with per-container keys stored in the order foo, bar. -/
def valsFooBar : SMap :=
  [("foo", Value.vsmap [("image", Value.vstr "r/foo:v1")]),
   ("bar", Value.vsmap [("image", Value.vstr "r/bar:v2")])]

/-- The same bindings stored in the order bar, foo. -/
def valsBarFoo : SMap :=
  [("bar", Value.vsmap [("image", Value.vstr "r/bar:v2")]),
   ("foo", Value.vsmap [("image", Value.vstr "r/foo:v1")])]

/-- A mapping whose `tag` sibling is a non-string scalar. -/
def valsC10 : SMap :=
  [("image", Value.vstr "repo:v1"), ("tag", Value.vother 7)]

/-- The arbitrary-keyed encoding of `valsC10`. -/
def avalsC10 : AMap :=
  [(AKey.kstr "image", Value.vstr "repo:v1"),
   (AKey.kstr "tag", Value.vother 7)]

/-- A split-form tree with an unrelated sibling key. -/
def valsC8 : SMap :=
  [("image", Value.vstr "repo"), ("tag", Value.vstr "t"),
   ("persistence", Value.vother 0)]

/-- The setter the split form binds on `valsC8`. -/
def setterC8 : Ref → SMap :=
  fun ref =>
    setKey (setKey valsC8 "image" (Value.vstr ref.name)) "tag"
      (Value.vstr ref.tag)

/-- The arbitrary-keyed encoding of a split-form tree with an unrelated
sibling key. -/
def avalsC8 : AMap :=
  [(AKey.kstr "image", Value.vstr "repo"),
   (AKey.kstr "tag", Value.vstr "t"),
   (AKey.kstr "persistence", Value.vother 0)]

/-- The setter the split form binds on `avalsC8`. -/
def asetterC8 : Ref → AMap :=
  fun ref =>
    asetKey (asetKey avalsC8 (AKey.kstr "image") (Value.vstr ref.name))
      (AKey.kstr "tag") (Value.vstr ref.tag)

/-- A tree with one per-container declaration and an unrelated scalar
sibling. -/
def valsC8scan : SMap :=
  [("app", Value.vsmap [("image", Value.vstr "r:t")]),
   ("zzz", Value.vother 3)]

/-- The declaration the scan produces on `valsC8scan`. -/
def declC8 : Decl :=
  ("app", ⟨"r", "t"⟩,
    fun ref =>
      setKey valsC8scan "app"
        (Value.vsmap
          (setKey [("image", Value.vstr "r:t")] "image"
            (Value.vstr (refString ref)))))

/-- A tree with one string-keyed container, one arbitrary-keyed
container, one non-matching sub-mapping, and one sub-mapping whose image
declaration is nested one level too deep. -/
def valsC9 : SMap :=
  [("db", Value.vsmap [("image", Value.vstr "r:t")]),
   ("any", Value.vamap [(AKey.kstr "image", Value.vstr "q:u")]),
   ("other", Value.vsmap [("not", Value.vstr "x")]),
   ("deep", Value.vsmap [("b", Value.vsmap [("image", Value.vstr "z:9")])]),
   ("aother", Value.vamap [(AKey.kstr "not", Value.vstr "x")]),
   ("adeep", Value.vamap
     [(AKey.kstr "b",
       Value.vamap [(AKey.kstr "image", Value.vstr "z:9")])])]

/-- The `db` sub-mapping of `valsC9`. -/
def mDbC9 : SMap := [("image", Value.vstr "r:t")]

/-- The declaration `interpret_stringmap` reads out of `mDbC9`. -/
def pDbC9 : Ref × (Ref → SMap) :=
  (⟨"r", "t"⟩, fun ref => setKey mDbC9 "image" (Value.vstr (refString ref)))

/-- The `any` sub-mapping of `valsC9`. -/
def mAnyC9 : AMap := [(AKey.kstr "image", Value.vstr "q:u")]

/-- The declaration `interpret_anymap` reads out of `mAnyC9`. -/
def pAnyC9 : Ref × (Ref → AMap) :=
  (⟨"q", "u"⟩,
    fun ref => asetKey mAnyC9 (AKey.kstr "image") (Value.vstr (refString ref)))

mutual

/-- Canonical generic-markup re-encoding of a dynamic value: every
string-keyed mapping becomes the arbitrary-keyed mapping with the same
keys (as string keys) and recursively re-encoded values, which is the
shape a generic YAML decode of the same document produces. -/
def convVal : Value → Value
  | Value.vstr s => Value.vstr s
  | Value.vother n => Value.vother n
  | Value.vsmap l => Value.vamap (convS l)
  | Value.vamap l => Value.vamap (convA l)

/-- Re-encode the bindings of a string-keyed mapping. -/
def convS : List (String × Value) → List (AKey × Value)
  | [] => []
  | (k, v) :: rest => (AKey.kstr k, convVal v) :: convS rest

/-- Re-encode the values of an arbitrary-keyed mapping. -/
def convA : List (AKey × Value) → List (AKey × Value)
  | [] => []
  | (k, v) :: rest => (k, convVal v) :: convA rest

end

/-- A string-keyed tree with a direct-form nested image object. -/
def valsC7 : SMap :=
  [("image",
    Value.vsmap [("repository", Value.vstr "repo"), ("tag", Value.vstr "t")])]

/-- The setter `interpret_stringmap` binds on `valsC7`. -/
def setterC7 : Ref → SMap :=
  fun ref =>
    setKey valsC7 "image"
      (Value.vsmap
        (setKey
          (setKey [("repository", Value.vstr "repo"), ("tag", Value.vstr "t")]
            "repository" (Value.vstr ref.name))
          "tag" (Value.vstr ref.tag)))

/-! ### Helper lemmas about the map model -/

theorem slookup_setKey_self (m : SMap) (k : String) (v : Value) :
    slookup (setKey m k v) k = some v := by
  induction m with
  | nil => simp [setKey, slookup]
  | cons kv rest ih =>
      obtain ⟨k1, v1⟩ := kv
      by_cases h : k1 = k
      · simp [setKey, slookup, h]
      · simp [setKey, slookup, h, ih]

theorem slookup_setKey_other (m : SMap) (k k1 : String) (v : Value)
    (h : k1 ≠ k) : slookup (setKey m k v) k1 = slookup m k1 := by
  have h0 : ¬ k = k1 := fun hh => h hh.symm
  induction m with
  | nil => simp [setKey, slookup, h0]
  | cons kv rest ih =>
      obtain ⟨k2, v2⟩ := kv
      by_cases h2 : k2 = k
      · subst h2
        simp [setKey, slookup, h0]
      · by_cases h3 : k2 = k1 <;> simp [setKey, slookup, h, h2, h3, ih]

theorem setKey_map_fst (m : SMap) (k : String) (v w : Value)
    (h : slookup m k = some w) :
    (setKey m k v).map Prod.fst = m.map Prod.fst := by
  induction m with
  | nil => simp [slookup] at h
  | cons kv rest ih =>
      obtain ⟨k1, v1⟩ := kv
      by_cases h1 : k1 = k
      · subst h1; simp [setKey]
      · simp only [slookup, if_neg h1] at h
        simp [setKey, h1, ih h]

theorem alookup_asetKey_self (m : AMap) (k : AKey) (v : Value) :
    alookup (asetKey m k v) k = some v := by
  induction m with
  | nil => simp [asetKey, alookup]
  | cons kv rest ih =>
      obtain ⟨k1, v1⟩ := kv
      by_cases h : k1 = k
      · simp [asetKey, alookup, h]
      · simp [asetKey, alookup, h, ih]

theorem alookup_asetKey_other (m : AMap) (k k1 : AKey) (v : Value)
    (h : k1 ≠ k) : alookup (asetKey m k v) k1 = alookup m k1 := by
  have h0 : ¬ k = k1 := fun hh => h hh.symm
  induction m with
  | nil => simp [asetKey, alookup, h0]
  | cons kv rest ih =>
      obtain ⟨k2, v2⟩ := kv
      by_cases h2 : k2 = k
      · subst h2
        simp [asetKey, alookup, h0]
      · by_cases h3 : k2 = k1 <;> simp [asetKey, alookup, h, h2, h3, ih]

theorem asetKey_map_fst (m : AMap) (k : AKey) (v w : Value)
    (h : alookup m k = some w) :
    (asetKey m k v).map Prod.fst = m.map Prod.fst := by
  induction m with
  | nil => simp [alookup] at h
  | cons kv rest ih =>
      obtain ⟨k1, v1⟩ := kv
      by_cases h1 : k1 = k
      · subst h1; simp [asetKey]
      · simp only [alookup, if_neg h1] at h
        simp [asetKey, h1, ih h]

theorem slookup_mem_keys {m : SMap} {k : String} {v : Value}
    (h : slookup m k = some v) : k ∈ m.map Prod.fst := by
  induction m with
  | nil => simp [slookup] at h
  | cons kv rest ih =>
      obtain ⟨k1, v1⟩ := kv
      by_cases h1 : k1 = k
      · simp [h1]
      · simp only [slookup, if_neg h1] at h
        simp [ih h]

theorem slookup_perm {m1 m2 : SMap} (h : m1.Perm m2) :
    NodupKeys m1 → ∀ k, slookup m1 k = slookup m2 k := by
  induction h with
  | nil => intro _ k; rfl
  | cons x _ ih =>
      intro nd k
      obtain ⟨kx, vx⟩ := x
      have nd2 : NodupKeys _ := (List.nodup_cons.mp nd).2
      by_cases h1 : kx = k <;> simp [slookup, h1, ih nd2 k]
  | swap x y l =>
      intro nd k
      obtain ⟨kx, vx⟩ := x
      obtain ⟨ky, vy⟩ := y
      have hne : ky ≠ kx := by
        simp only [NodupKeys, List.map_cons, List.nodup_cons, List.mem_cons] at nd
        exact fun hh => nd.1 (Or.inl hh)
      have hne2 : ¬ kx = ky := fun hh => hne hh.symm
      by_cases h1 : ky = k
      · subst h1
        simp [slookup, hne2]
      · by_cases h2 : kx = k <;> simp [slookup, h1, h2]
  | trans h1 _ ih1 ih2 =>
      intro nd k
      exact (ih1 nd k).trans (ih2 ((h1.map Prod.fst).nodup nd) k)

theorem charsLe_total : ∀ as bs : List Char,
    charsLe as bs = true ∨ charsLe bs as = true := by
  intro as
  induction as with
  | nil => intro bs; left; rfl
  | cons a as ih =>
      intro bs
      cases bs with
      | nil => right; rfl
      | cons b bs =>
          by_cases h1 : a.toNat < b.toNat
          · left; simp [charsLe, h1]
          · by_cases h2 : b.toNat < a.toNat
            · right; simp [charsLe, h1, h2]
            · rcases ih bs with h | h
              · left; simp [charsLe, h1, h2, h]
              · right; simp [charsLe, h1, h2, h]

theorem charsLe_trans : ∀ as bs cs : List Char, charsLe as bs = true →
    charsLe bs cs = true → charsLe as cs = true := by
  intro as
  induction as with
  | nil => intro bs cs _ _; rfl
  | cons a as ih =>
      intro bs cs h1 h2
      cases bs with
      | nil => simp [charsLe] at h1
      | cons b bs =>
          cases cs with
          | nil => simp [charsLe] at h2
          | cons c cs =>
              simp only [charsLe] at h1 h2 ⊢
              by_cases hab : a.toNat < b.toNat
              · by_cases hbc : b.toNat < c.toNat
                · simp [Nat.lt_trans hab hbc]
                · by_cases hcb : c.toNat < b.toNat
                  · simp [hbc, hcb] at h2
                  · have hac : a.toNat < c.toNat := by omega
                    simp [hac]
              · by_cases hba : b.toNat < a.toNat
                · simp [hab, hba] at h1
                · by_cases hbc : b.toNat < c.toNat
                  · have hac : a.toNat < c.toNat := by omega
                    simp [hac]
                  · by_cases hcb : c.toNat < b.toNat
                    · simp [hbc, hcb] at h2
                    · have hac : ¬ a.toNat < c.toNat := by omega
                      have hca : ¬ c.toNat < a.toNat := by omega
                      simp only [if_neg hab, if_neg hba] at h1
                      simp only [if_neg hbc, if_neg hcb] at h2
                      simp only [if_neg hac, if_neg hca]
                      exact ih bs cs h1 h2

theorem charsLe_antisymm : ∀ as bs : List Char, charsLe as bs = true →
    charsLe bs as = true → as = bs := by
  intro as
  induction as with
  | nil =>
      intro bs h1 h2
      cases bs with
      | nil => rfl
      | cons b bs => simp [charsLe] at h2
  | cons a as ih =>
      intro bs h1 h2
      cases bs with
      | nil => simp [charsLe] at h1
      | cons b bs =>
          simp only [charsLe] at h1 h2
          by_cases hab : a.toNat < b.toNat
          · have hba : ¬ b.toNat < a.toNat := by omega
            simp [hab, hba] at h2
          · by_cases hba : b.toNat < a.toNat
            · simp [hab, hba] at h1
            · have hnat : a.toNat = b.toNat := by omega
              have hch : a = b := Char.ext (UInt32.toNat.inj hnat)
              simp only [if_neg hab, if_neg hba] at h1
              simp only [if_neg hba, if_neg hab] at h2
              rw [hch, ih bs h1 h2]

instance : IsTotal String fun a b => strLe a b = true :=
  ⟨fun a b => charsLe_total a.data b.data⟩

instance : IsTrans String fun a b => strLe a b = true :=
  ⟨fun a b c => charsLe_trans a.data b.data c.data⟩

instance : IsAntisymm String fun a b => strLe a b = true :=
  ⟨fun a b h1 h2 => by
    cases a
    cases b
    exact congrArg String.mk (charsLe_antisymm _ _ h1 h2)⟩

theorem sorted_keys_perm {m1 m2 : SMap} (h : m1.Perm m2) :
    sorted_keys m1 = sorted_keys m2 :=
  List.eq_of_perm_of_sorted
    ((List.perm_insertionSort _ _).trans
      ((h.map Prod.fst).trans (List.perm_insertionSort _ _).symm))
    (List.sorted_insertionSort _ _) (List.sorted_insertionSort _ _)

theorem mem_sorted_keys {m : SMap} {k : String} :
    k ∈ sorted_keys m ↔ k ∈ m.map Prod.fst :=
  (List.perm_insertionSort _ _).mem_iff

/-! ### The reference each interpretation reports, as a function of the
relevant lookups only -/

theorem interpret_stringmap_fst (parse : String → Option Ref) (m : SMap) :
    (interpret_stringmap parse m).map Prod.fst
      = refOf_smap parse (slookup m "image") (slookup m "tag") := by
  unfold interpret_stringmap refOf_smap
  repeat' split
  all_goals simp_all

theorem interpret_anymap_fst (parse : String → Option Ref) (m : AMap) :
    (interpret_anymap parse m).map Prod.fst
      = refOf_amap parse (alookup m (AKey.kstr "image"))
          (alookup m (AKey.kstr "tag")) := by
  unfold interpret_anymap refOf_amap
  repeat' split
  all_goals simp_all

/-! ### A lookup-only description of the container view -/

theorem foldl_append_eq_map {α β : Type} (f : α → β) (l : List α) :
    ∀ s : List β, l.foldl (fun s a => s ++ [f a]) s = s ++ l.map f := by
  induction l with
  | nil => intro s; simp
  | cons a t ih => intro s; simp [ih]

theorem Containers_eq_map (parse : String → Option Ref) (values : SMap) :
    Containers parse values
      = (scanDecls parse values).map fun d => (d.1, d.2.1) := by
  unfold Containers FindFluxHelmReleaseContainers
  exact foldl_append_eq_map _ _ []

theorem Containers_eq_spec (parse : String → Option Ref) (values : SMap) :
    Containers parse values
      = ContainersSpec parse (slookup values) (sorted_keys values) := by
  rw [Containers_eq_map]
  unfold scanDecls ContainersSpec
  cases hi : interpret_stringmap parse values with
  | some p =>
      have hro := interpret_stringmap_fst parse values
      rw [hi] at hro
      rw [← hro]
      rfl
  | none =>
      have hro := interpret_stringmap_fst parse values
      rw [hi] at hro
      rw [← hro]
      simp only [Option.map_none]
      rw [List.map_filterMap]
      apply List.filterMap_congr
      intro k _
      unfold containerOf
      cases hk : slookup values k with
      | none => rfl
      | some v =>
          cases v with
          | vstr _ => rfl
          | vsmap m =>
              simp only [Option.map_map, ← interpret_stringmap_fst]
              rfl
          | vamap m =>
              simp only [Option.map_map, ← interpret_anymap_fst]
              rfl
          | vother _ => rfl

/-! ### Claim theorems -/

/-- C1: the spec (and the source's own doc comment on
`FindFluxHelmReleaseContainers`) says an error returned by the visitor
aborts the scan and is returned verbatim.  The source discards the
result of every `visit` call and returns nil on both paths.  Here a
visitor that fails on every invocation (counting its invocations in the
state) is invoked once on a direct-form tree, and twice on a
two-container tree — so the scan did not stop at the first failure — yet
the scan reports success both times. -/
theorem c1_visitor_error_discarded :
    FindFluxHelmReleaseContainers parseRef [("image", Value.vstr "repo:t")]
      (fun (n : Nat) _ _ _ => (n + 1, some "boom")) 0 = (1, none)
    ∧ FindFluxHelmReleaseContainers parseRef
        [("a", Value.vsmap [("image", Value.vstr "r:1")]),
         ("b", Value.vsmap [("image", Value.vstr "r:2")])]
        (fun (n : Nat) _ _ _ => (n + 1, some "boom")) 0 = (2, none) :=
  ⟨rfl, rfl⟩

/-- C3: on a tree with top-level `image: "repo"` and sibling
`tag: "t"`, the container view yields exactly the reserved sentinel name
with reference repo:t, and setting the sentinel to repo2:t2 writes the
name and the tag back into the two separate fields (shape preserved, not
recombined) and succeeds. -/
theorem c3_split_image_tag_roundtrip :
    Containers parseRef [("image", Value.vstr "repo"), ("tag", Value.vstr "t")]
      = [(ReleaseContainerName, ⟨"repo", "t"⟩)]
    ∧ refString ⟨"repo", "t"⟩ = "repo:t"
    ∧ SetContainerImage parseRef
        [("image", Value.vstr "repo"), ("tag", Value.vstr "t")]
        ReleaseContainerName ⟨"repo2", "t2"⟩
      = ([("image", Value.vstr "repo2"), ("tag", Value.vstr "t2")], none) :=
  ⟨rfl, rfl, rfl⟩

/-- C2: whenever the top-level mapping itself interprets as an image
declaration (the direct form), the scan consists of exactly that one
declaration under the reserved container name, and no per-container
declaration is produced from any other top-level key. -/
theorem c2_direct_form_preempts (parse : String → Option Ref) (values : SMap)
    (p : Ref × (Ref → SMap))
    (h : interpret_stringmap parse values = some p) :
    scanDecls parse values = [(ReleaseContainerName, p.1, p.2)]
    ∧ Containers parse values = [(ReleaseContainerName, p.1)] := by
  constructor
  · unfold scanDecls
    rw [h]
  · rw [Containers_eq_map]
    unfold scanDecls
    rw [h]
    rfl

/-- Witness for C2 at a concrete tree: the sibling `db` sub-mapping
would match the per-container form, but the direct-form match is the
only declaration visited. -/
theorem c2_direct_form_preempts_witness :
    scanDecls parseRef valsC2 = [(ReleaseContainerName, ⟨"r", "t"⟩, setterC2)]
    ∧ Containers parseRef valsC2 = [(ReleaseContainerName, ⟨"r", "t"⟩)] :=
  c2_direct_form_preempts parseRef valsC2 (⟨"r", "t"⟩, setterC2) rfl

/-- C4: setting a container name that none of the scanned declarations
carries returns the not-found error naming that container and leaves the
values tree unchanged. -/
theorem c4_not_found (parse : String → Option Ref) (values : SMap)
    (container : String) (ref : Ref)
    (h : container ∉ (scanDecls parse values).map fun d => d.1) :
    SetContainerImage parse values container ref
      = (values,
          some ("did not find container " ++ container
            ++ " in FluxHelmRelease")) := by
  have key : ∀ (l : List Decl) (s : SMap × Bool),
      container ∉ l.map (fun d => d.1) →
      List.foldl (fun s d =>
        if container = d.1 then (d.2.2 ref, true) else s) s l = s := by
    intro l
    induction l with
    | nil => intro s _; rfl
    | cons d t ih =>
        intro s hh
        simp only [List.map_cons, List.mem_cons, not_or] at hh
        simp only [List.foldl_cons, if_neg hh.1]
        exact ih _ hh.2
  unfold SetContainerImage FindFluxHelmReleaseContainers
  simp only []
  rw [key _ _ h]
  simp

/-- Witness for C4: the tree has the single scanned name `db`; asking
for `api` fails with the not-found message and returns the tree intact. -/
theorem c4_not_found_witness :
    "api" ∉ ((scanDecls parseRef
        [("db", Value.vsmap [("image", Value.vstr "r:t")])]).map fun d => d.1)
    ∧ SetContainerImage parseRef
        [("db", Value.vsmap [("image", Value.vstr "r:t")])] "api" ⟨"n", "g"⟩
      = ([("db", Value.vsmap [("image", Value.vstr "r:t")])],
          some "did not find container api in FluxHelmRelease") :=
  ⟨by decide, c4_not_found parseRef _ "api" ⟨"n", "g"⟩ (by decide)⟩

/-- C5: the container view is independent of the map's internal key
order — scanning any permutation of the same (duplicate-free) bindings
yields the same containers in the same order, because the scan iterates
the keys lexicographically sorted. -/
theorem c5_order_stable (parse : String → Option Ref) (m1 m2 : SMap)
    (h : m1.Perm m2) (nd : NodupKeys m1) :
    Containers parse m1 = Containers parse m2 := by
  rw [Containers_eq_spec, Containers_eq_spec]
  have hl : slookup m1 = slookup m2 := funext (slookup_perm h nd)
  rw [hl, sorted_keys_perm h]

/-- Witness for C5: both internal orders of the {bar, foo} tree produce
the same container list, and that list names bar before foo. -/
theorem c5_order_stable_witness :
    valsFooBar.Perm valsBarFoo
    ∧ NodupKeys valsFooBar
    ∧ Containers parseRef valsFooBar = Containers parseRef valsBarFoo
    ∧ Containers parseRef valsFooBar
      = [("bar", ⟨"r/bar", "v2"⟩), ("foo", ⟨"r/foo", "v1"⟩)] :=
  ⟨List.Perm.swap _ _ _, by decide,
    c5_order_stable parseRef valsFooBar valsBarFoo (List.Perm.swap _ _ _)
      (by decide),
    by decide⟩

theorem interpret_stringmap_failAll (m : SMap) :
    interpret_stringmap (fun _ => none) m = none := by
  unfold interpret_stringmap
  repeat' split
  all_goals simp_all

theorem interpret_anymap_failAll (m : AMap) :
    interpret_anymap (fun _ => none) m = none := by
  unfold interpret_anymap
  repeat' split
  all_goals simp_all

/-- C6: an `image` string the external parser rejects — or a
`repository`/`tag` pair whose combination it rejects — produces no
declaration and no error, in every branch of both interpreters; and with
a parser that rejects everything, the scan of any tree visits nothing
(so the visitor is only ever invoked with successfully parsed
references). -/
theorem c6_unparsable_skipped :
    (∀ (parse : String → Option Ref) (m : SMap) (s : String),
        slookup m "image" = some (Value.vstr s) → parse s = none →
        interpret_stringmap parse m = none)
    ∧ (∀ (parse : String → Option Ref) (m img : SMap) (repo tg : String),
        slookup m "image" = some (Value.vsmap img) →
        slookup img "repository" = some (Value.vstr repo) →
        slookup img "tag" = some (Value.vstr tg) →
        parse (repo ++ ":" ++ tg) = none →
        interpret_stringmap parse m = none)
    ∧ (∀ (parse : String → Option Ref) (m : SMap) (img : AMap)
        (repo tg : String),
        slookup m "image" = some (Value.vamap img) →
        alookup img (AKey.kstr "repository") = some (Value.vstr repo) →
        alookup img (AKey.kstr "tag") = some (Value.vstr tg) →
        parse (repo ++ ":" ++ tg) = none →
        interpret_stringmap parse m = none)
    ∧ (∀ (parse : String → Option Ref) (m : AMap) (s : String),
        alookup m (AKey.kstr "image") = some (Value.vstr s) →
        parse s = none → interpret_anymap parse m = none)
    ∧ (∀ (parse : String → Option Ref) (m img : AMap) (repo tg : String),
        alookup m (AKey.kstr "image") = some (Value.vamap img) →
        alookup img (AKey.kstr "repository") = some (Value.vstr repo) →
        alookup img (AKey.kstr "tag") = some (Value.vstr tg) →
        parse (repo ++ ":" ++ tg) = none →
        interpret_anymap parse m = none)
    ∧ (∀ values : SMap, scanDecls (fun _ => none) values = []
        ∧ Containers (fun _ => none) values = []) := by
  refine ⟨?_, ?_, ?_, ?_, ?_, ?_⟩
  · intro parse m s h1 h2
    unfold interpret_stringmap
    repeat' split
    all_goals simp_all
  · intro parse m img repo tg h1 h2 h3 h4
    unfold interpret_stringmap
    repeat' split
    all_goals simp_all
  · intro parse m img repo tg h1 h2 h3 h4
    unfold interpret_stringmap
    repeat' split
    all_goals simp_all
  · intro parse m s h1 h2
    unfold interpret_anymap
    repeat' split
    all_goals simp_all
  · intro parse m img repo tg h1 h2 h3 h4
    unfold interpret_anymap
    repeat' split
    all_goals simp_all
  · intro values
    have hs : scanDecls (fun _ => none) values = [] := by
      unfold scanDecls
      rw [interpret_stringmap_failAll]
      refine List.filterMap_eq_nil_iff.mpr ?_
      intro k _
      split
      · rw [interpret_stringmap_failAll]; rfl
      · rw [interpret_anymap_failAll]; rfl
      · rfl
    exact ⟨hs, by rw [Containers_eq_map, hs]; rfl⟩

/-- Witness for C6: concrete rejected inputs (the modelled parser
rejects an empty name part) in each of the five interpreter branches,
and an everything-rejecting parser scanning a direct-form tree. -/
theorem c6_unparsable_skipped_witness :
    parseRef "" = none
    ∧ interpret_stringmap parseRef [("image", Value.vstr "")] = none
    ∧ interpret_stringmap parseRef
        [("image", Value.vsmap
          [("repository", Value.vstr ""), ("tag", Value.vstr "t")])] = none
    ∧ interpret_stringmap parseRef
        [("image", Value.vamap
          [(AKey.kstr "repository", Value.vstr ""),
           (AKey.kstr "tag", Value.vstr "t")])] = none
    ∧ interpret_anymap parseRef [(AKey.kstr "image", Value.vstr "")] = none
    ∧ interpret_anymap parseRef
        [(AKey.kstr "image", Value.vamap
          [(AKey.kstr "repository", Value.vstr ""),
           (AKey.kstr "tag", Value.vstr "t")])] = none
    ∧ scanDecls (fun _ => none) [("image", Value.vstr "x")] = []
    ∧ Containers (fun _ => none) [("image", Value.vstr "x")] = [] :=
  ⟨rfl,
    c6_unparsable_skipped.1 parseRef _ "" rfl rfl,
    c6_unparsable_skipped.2.1 parseRef _ _ "" "t" rfl rfl rfl rfl,
    c6_unparsable_skipped.2.2.1 parseRef _ _ "" "t" rfl rfl rfl rfl,
    c6_unparsable_skipped.2.2.2.1 parseRef _ "" rfl rfl,
    c6_unparsable_skipped.2.2.2.2.1 parseRef _ _ "" "t" rfl rfl rfl rfl,
    (c6_unparsable_skipped.2.2.2.2.2 [("image", Value.vstr "x")]).1,
    (c6_unparsable_skipped.2.2.2.2.2 [("image", Value.vstr "x")]).2⟩

/-- C10: when the `image` field is a parsable string and a sibling `tag`
field exists but is not a string, the declaration is not treated as
split: the reported reference comes from the image string alone, the
bound setter writes a single recombined string into `image`, and the
non-string `tag` field is left unchanged.  Both interpreters. -/
theorem c10_nonstring_tag_ignored :
    (∀ (parse : String → Option Ref) (m : SMap) (s : String) (r : Ref)
        (w : Value),
        slookup m "image" = some (Value.vstr s) →
        parse s = some r →
        slookup m "tag" = some w →
        (∀ ts, w ≠ Value.vstr ts) →
        interpret_stringmap parse m
          = some (r, fun ref => setKey m "image" (Value.vstr (refString ref)))
        ∧ ∀ ref1 : Ref,
            slookup (setKey m "image" (Value.vstr (refString ref1))) "tag"
              = some w)
    ∧ (∀ (parse : String → Option Ref) (m : AMap) (s : String) (r : Ref)
        (w : Value),
        alookup m (AKey.kstr "image") = some (Value.vstr s) →
        parse s = some r →
        alookup m (AKey.kstr "tag") = some w →
        (∀ ts, w ≠ Value.vstr ts) →
        interpret_anymap parse m
          = some (r,
              fun ref => asetKey m (AKey.kstr "image")
                (Value.vstr (refString ref)))
        ∧ ∀ ref1 : Ref,
            alookup
              (asetKey m (AKey.kstr "image") (Value.vstr (refString ref1)))
              (AKey.kstr "tag") = some w) := by
  constructor
  · intro parse m s r w h1 h2 h3 h4
    constructor
    · unfold interpret_stringmap
      simp only [h1, h2, h3]
      cases w with
      | vstr ts => exact absurd rfl (h4 ts)
      | vsmap l => rfl
      | vamap l => rfl
      | vother n => rfl
    · intro ref1
      rw [slookup_setKey_other _ _ _ _ (by decide)]
      exact h3
  · intro parse m s r w h1 h2 h3 h4
    constructor
    · unfold interpret_anymap
      simp only [h1, h2, h3]
      cases w with
      | vstr ts => exact absurd rfl (h4 ts)
      | vsmap l => rfl
      | vamap l => rfl
      | vother n => rfl
    · intro ref1
      rw [alookup_asetKey_other _ _ _ _ (by decide)]
      exact h3

/-- Witness for C10: with `tag` a number, the reference keeps the tag
parsed from the image string, the setter writes one combined string, and
the numeric `tag` survives the write-back, in both encodings. -/
theorem c10_nonstring_tag_ignored_witness :
    interpret_stringmap parseRef valsC10
      = some (⟨"repo", "v1"⟩,
          fun ref => setKey valsC10 "image" (Value.vstr (refString ref)))
    ∧ slookup (setKey valsC10 "image" (Value.vstr (refString ⟨"n", "2"⟩)))
        "tag" = some (Value.vother 7)
    ∧ interpret_anymap parseRef avalsC10
      = some (⟨"repo", "v1"⟩,
          fun ref => asetKey avalsC10 (AKey.kstr "image")
            (Value.vstr (refString ref)))
    ∧ alookup
        (asetKey avalsC10 (AKey.kstr "image")
          (Value.vstr (refString ⟨"n", "2"⟩)))
        (AKey.kstr "tag") = some (Value.vother 7) :=
  ⟨(c10_nonstring_tag_ignored.1 parseRef valsC10 "repo:v1" ⟨"repo", "v1"⟩
      (Value.vother 7) rfl rfl rfl (fun _ h => Value.noConfusion h)).1,
    (c10_nonstring_tag_ignored.1 parseRef valsC10 "repo:v1" ⟨"repo", "v1"⟩
      (Value.vother 7) rfl rfl rfl (fun _ h => Value.noConfusion h)).2
      ⟨"n", "2"⟩,
    (c10_nonstring_tag_ignored.2 parseRef avalsC10 "repo:v1" ⟨"repo", "v1"⟩
      (Value.vother 7) rfl rfl rfl (fun _ h => Value.noConfusion h)).1,
    (c10_nonstring_tag_ignored.2 parseRef avalsC10 "repo:v1" ⟨"repo", "v1"⟩
      (Value.vother 7) rfl rfl rfl (fun _ h => Value.noConfusion h)).2
      ⟨"n", "2"⟩⟩

/-- Frame and shape preservation for a setter bound by
`interpret_stringmap`: the setter preserves the mapping's key sequence,
leaves every key other than `image` and `tag` bound to its old value,
and writes the new reference back in exactly the shape that was read. -/
theorem interpret_stringmap_frame (parse : String → Option Ref) (m : SMap)
    (r : Ref) (set : Ref → SMap)
    (h : interpret_stringmap parse m = some (r, set)) (ref1 : Ref) :
    ((set ref1).map Prod.fst = m.map Prod.fst)
    ∧ (∀ k, k ≠ "image" → k ≠ "tag" →
        slookup (set ref1) k = slookup m k)
    ∧ ((slookup (set ref1) "image" = some (Value.vstr ref1.name)
          ∧ slookup (set ref1) "tag" = some (Value.vstr ref1.tag)
          ∧ ∃ ts, slookup m "tag" = some (Value.vstr ts))
      ∨ (slookup (set ref1) "image" = some (Value.vstr (refString ref1))
          ∧ slookup (set ref1) "tag" = slookup m "tag")
      ∨ (∃ img img2,
          slookup m "image" = some (Value.vsmap img)
          ∧ slookup (set ref1) "image" = some (Value.vsmap img2)
          ∧ img2.map Prod.fst = img.map Prod.fst
          ∧ slookup img2 "repository" = some (Value.vstr ref1.name)
          ∧ slookup img2 "tag" = some (Value.vstr ref1.tag)
          ∧ (∀ k, k ≠ "repository" → k ≠ "tag" →
              slookup img2 k = slookup img k)
          ∧ slookup (set ref1) "tag" = slookup m "tag")
      ∨ (∃ img img2,
          slookup m "image" = some (Value.vamap img)
          ∧ slookup (set ref1) "image" = some (Value.vamap img2)
          ∧ img2.map Prod.fst = img.map Prod.fst
          ∧ alookup img2 (AKey.kstr "repository")
              = some (Value.vstr ref1.name)
          ∧ alookup img2 (AKey.kstr "tag") = some (Value.vstr ref1.tag)
          ∧ (∀ k, k ≠ AKey.kstr "repository" → k ≠ AKey.kstr "tag" →
              alookup img2 k = alookup img k)
          ∧ slookup (set ref1) "tag" = slookup m "tag")) := by
  unfold interpret_stringmap at h
  split at h
  · rename_i img heqi
    split at h
    · rename_i r0 hp
      split at h
      · rename_i tagStr heqt
        rw [Option.some_inj, Prod.mk.injEq] at h
        obtain ⟨hr, hset⟩ := h
        subst hset
        have htag1 : slookup (setKey m "image" (Value.vstr ref1.name)) "tag"
            = slookup m "tag" := slookup_setKey_other _ _ _ _ (by decide)
        refine ⟨?_, ?_, Or.inl ⟨?_, ?_, ⟨tagStr, heqt⟩⟩⟩
        · rw [setKey_map_fst _ _ _ _ (htag1.trans heqt),
            setKey_map_fst _ _ _ _ heqi]
        · intro k hki hkt
          rw [slookup_setKey_other _ _ _ _ hkt,
            slookup_setKey_other _ _ _ _ hki]
        · rw [slookup_setKey_other _ _ _ _ (by decide),
            slookup_setKey_self]
        · rw [slookup_setKey_self]
      · rw [Option.some_inj, Prod.mk.injEq] at h
        obtain ⟨hr, hset⟩ := h
        subst hset
        refine ⟨?_, ?_, Or.inr (Or.inl ⟨?_, ?_⟩)⟩
        · rw [setKey_map_fst _ _ _ _ heqi]
        · intro k hki _
          rw [slookup_setKey_other _ _ _ _ hki]
        · rw [slookup_setKey_self]
        · rw [slookup_setKey_other _ _ _ _ (by decide)]
    · exact Option.noConfusion h
  · rename_i img heqi
    split at h
    · rename_i imgRepo heqr
      split at h
      · rename_i imgTag heqt
        split at h
        · rename_i r0 hp
          rw [Option.some_inj, Prod.mk.injEq] at h
          obtain ⟨hr, hset⟩ := h
          subst hset
          have htagin :
              slookup (setKey img "repository" (Value.vstr ref1.name)) "tag"
                = slookup img "tag" := slookup_setKey_other _ _ _ _ (by decide)
          refine ⟨?_, ?_, Or.inr (Or.inr (Or.inl
            ⟨img, setKey (setKey img "repository" (Value.vstr ref1.name))
              "tag" (Value.vstr ref1.tag), heqi, ?_, ?_, ?_, ?_, ?_, ?_⟩))⟩
          · rw [setKey_map_fst _ _ _ _ heqi]
          · intro k hki _
            rw [slookup_setKey_other _ _ _ _ hki]
          · rw [slookup_setKey_self]
          · rw [setKey_map_fst _ _ _ _ (htagin.trans heqt),
              setKey_map_fst _ _ _ _ heqr]
          · rw [slookup_setKey_other _ _ _ _ (by decide),
              slookup_setKey_self]
          · rw [slookup_setKey_self]
          · intro k hkr hkt
            rw [slookup_setKey_other _ _ _ _ hkt,
              slookup_setKey_other _ _ _ _ hkr]
          · rw [slookup_setKey_other _ _ _ _ (by decide)]
        · exact Option.noConfusion h
      · exact Option.noConfusion h
    · exact Option.noConfusion h
  · rename_i img heqi
    split at h
    · rename_i imgRepo heqr
      split at h
      · rename_i imgTag heqt
        split at h
        · rename_i r0 hp
          rw [Option.some_inj, Prod.mk.injEq] at h
          obtain ⟨hr, hset⟩ := h
          subst hset
          have htagin :
              alookup (asetKey img (AKey.kstr "repository")
                (Value.vstr ref1.name)) (AKey.kstr "tag")
                = alookup img (AKey.kstr "tag") :=
            alookup_asetKey_other _ _ _ _ (by decide)
          refine ⟨?_, ?_, Or.inr (Or.inr (Or.inr
            ⟨img, asetKey (asetKey img (AKey.kstr "repository")
                (Value.vstr ref1.name)) (AKey.kstr "tag")
              (Value.vstr ref1.tag), heqi, ?_, ?_, ?_, ?_, ?_, ?_⟩))⟩
          · rw [setKey_map_fst _ _ _ _ heqi]
          · intro k hki _
            rw [slookup_setKey_other _ _ _ _ hki]
          · rw [slookup_setKey_self]
          · rw [asetKey_map_fst _ _ _ _ (htagin.trans heqt),
              asetKey_map_fst _ _ _ _ heqr]
          · rw [alookup_asetKey_other _ _ _ _ (by decide),
              alookup_asetKey_self]
          · rw [alookup_asetKey_self]
          · intro k hkr hkt
            rw [alookup_asetKey_other _ _ _ _ hkt,
              alookup_asetKey_other _ _ _ _ hkr]
          · rw [slookup_setKey_other _ _ _ _ (by decide)]
        · exact Option.noConfusion h
      · exact Option.noConfusion h
    · exact Option.noConfusion h
  · exact Option.noConfusion h

/-- Frame and shape preservation for a setter bound by
`interpret_anymap` (Go lines 161-168 and 175-179): the same guarantees
for the arbitrary-keyed encoding. -/
theorem interpret_anymap_frame (parse : String → Option Ref) (m : AMap)
    (r : Ref) (set : Ref → AMap)
    (h : interpret_anymap parse m = some (r, set)) (ref1 : Ref) :
    ((set ref1).map Prod.fst = m.map Prod.fst)
    ∧ (∀ k, k ≠ AKey.kstr "image" → k ≠ AKey.kstr "tag" →
        alookup (set ref1) k = alookup m k)
    ∧ ((alookup (set ref1) (AKey.kstr "image")
            = some (Value.vstr ref1.name)
          ∧ alookup (set ref1) (AKey.kstr "tag")
            = some (Value.vstr ref1.tag)
          ∧ ∃ ts, alookup m (AKey.kstr "tag") = some (Value.vstr ts))
      ∨ (alookup (set ref1) (AKey.kstr "image")
            = some (Value.vstr (refString ref1))
          ∧ alookup (set ref1) (AKey.kstr "tag")
            = alookup m (AKey.kstr "tag"))
      ∨ (∃ img img2,
          alookup m (AKey.kstr "image") = some (Value.vamap img)
          ∧ alookup (set ref1) (AKey.kstr "image")
              = some (Value.vamap img2)
          ∧ img2.map Prod.fst = img.map Prod.fst
          ∧ alookup img2 (AKey.kstr "repository")
              = some (Value.vstr ref1.name)
          ∧ alookup img2 (AKey.kstr "tag") = some (Value.vstr ref1.tag)
          ∧ (∀ k, k ≠ AKey.kstr "repository" → k ≠ AKey.kstr "tag" →
              alookup img2 k = alookup img k)
          ∧ alookup (set ref1) (AKey.kstr "tag")
              = alookup m (AKey.kstr "tag"))) := by
  unfold interpret_anymap at h
  split at h
  · rename_i img heqi
    split at h
    · rename_i r0 hp
      split at h
      · rename_i tagStr heqt
        rw [Option.some_inj, Prod.mk.injEq] at h
        obtain ⟨hr, hset⟩ := h
        subst hset
        have htag1 : alookup (asetKey m (AKey.kstr "image")
            (Value.vstr ref1.name)) (AKey.kstr "tag")
            = alookup m (AKey.kstr "tag") :=
          alookup_asetKey_other _ _ _ _ (by decide)
        refine ⟨?_, ?_, Or.inl ⟨?_, ?_, ⟨tagStr, heqt⟩⟩⟩
        · rw [asetKey_map_fst _ _ _ _ (htag1.trans heqt),
            asetKey_map_fst _ _ _ _ heqi]
        · intro k hki hkt
          rw [alookup_asetKey_other _ _ _ _ hkt,
            alookup_asetKey_other _ _ _ _ hki]
        · rw [alookup_asetKey_other _ _ _ _ (by decide),
            alookup_asetKey_self]
        · rw [alookup_asetKey_self]
      · rw [Option.some_inj, Prod.mk.injEq] at h
        obtain ⟨hr, hset⟩ := h
        subst hset
        refine ⟨?_, ?_, Or.inr (Or.inl ⟨?_, ?_⟩)⟩
        · rw [asetKey_map_fst _ _ _ _ heqi]
        · intro k hki _
          rw [alookup_asetKey_other _ _ _ _ hki]
        · rw [alookup_asetKey_self]
        · rw [alookup_asetKey_other _ _ _ _ (by decide)]
    · exact Option.noConfusion h
  · rename_i img heqi
    split at h
    · rename_i imgRepo heqr
      split at h
      · rename_i imgTag heqt
        split at h
        · rename_i r0 hp
          rw [Option.some_inj, Prod.mk.injEq] at h
          obtain ⟨hr, hset⟩ := h
          subst hset
          have htagin :
              alookup (asetKey img (AKey.kstr "repository")
                (Value.vstr ref1.name)) (AKey.kstr "tag")
                = alookup img (AKey.kstr "tag") :=
            alookup_asetKey_other _ _ _ _ (by decide)
          refine ⟨?_, ?_, Or.inr (Or.inr
            ⟨img, asetKey (asetKey img (AKey.kstr "repository")
                (Value.vstr ref1.name)) (AKey.kstr "tag")
              (Value.vstr ref1.tag), heqi, ?_, ?_, ?_, ?_, ?_, ?_⟩)⟩
          · rw [asetKey_map_fst _ _ _ _ heqi]
          · intro k hki _
            rw [alookup_asetKey_other _ _ _ _ hki]
          · rw [alookup_asetKey_self]
          · rw [asetKey_map_fst _ _ _ _ (htagin.trans heqt),
              asetKey_map_fst _ _ _ _ heqr]
          · rw [alookup_asetKey_other _ _ _ _ (by decide),
              alookup_asetKey_self]
          · rw [alookup_asetKey_self]
          · intro k hkr hkt
            rw [alookup_asetKey_other _ _ _ _ hkt,
              alookup_asetKey_other _ _ _ _ hkr]
          · rw [alookup_asetKey_other _ _ _ _ (by decide)]
        · exact Option.noConfusion h
      · exact Option.noConfusion h
    · exact Option.noConfusion h
  · exact Option.noConfusion h

/-- C8: frame and shape preservation for every setter the scan can
bind.  (i) A declaration `interpret_stringmap` matches: the setter
preserves the mapping's key sequence, leaves every key other than
`image` and `tag` bound to its old value, and writes the new reference
back in exactly the shape that was read (split fields, one combined
string with `tag` untouched, or a nested repository/tag object whose
own key sequence and unrelated keys are preserved).  (ii) The same for
every declaration `interpret_anymap` matches.  (iii) At the scan level,
every declaration's setter — the direct form's or the wrapped
per-container ones — preserves the top-level key sequence and leaves
every top-level key other than the declaration's own key, `image` and
`tag` bound to its old value, so sibling declarations are untouched. -/
theorem c8_frame_and_shape (parse : String → Option Ref) :
    (∀ (m : SMap) (r : Ref) (set : Ref → SMap),
        interpret_stringmap parse m = some (r, set) → ∀ ref1 : Ref,
        ((set ref1).map Prod.fst = m.map Prod.fst)
        ∧ (∀ k, k ≠ "image" → k ≠ "tag" →
            slookup (set ref1) k = slookup m k)
        ∧ ((slookup (set ref1) "image" = some (Value.vstr ref1.name)
              ∧ slookup (set ref1) "tag" = some (Value.vstr ref1.tag)
              ∧ ∃ ts, slookup m "tag" = some (Value.vstr ts))
          ∨ (slookup (set ref1) "image"
                = some (Value.vstr (refString ref1))
              ∧ slookup (set ref1) "tag" = slookup m "tag")
          ∨ (∃ img img2,
              slookup m "image" = some (Value.vsmap img)
              ∧ slookup (set ref1) "image" = some (Value.vsmap img2)
              ∧ img2.map Prod.fst = img.map Prod.fst
              ∧ slookup img2 "repository" = some (Value.vstr ref1.name)
              ∧ slookup img2 "tag" = some (Value.vstr ref1.tag)
              ∧ (∀ k, k ≠ "repository" → k ≠ "tag" →
                  slookup img2 k = slookup img k)
              ∧ slookup (set ref1) "tag" = slookup m "tag")
          ∨ (∃ img img2,
              slookup m "image" = some (Value.vamap img)
              ∧ slookup (set ref1) "image" = some (Value.vamap img2)
              ∧ img2.map Prod.fst = img.map Prod.fst
              ∧ alookup img2 (AKey.kstr "repository")
                  = some (Value.vstr ref1.name)
              ∧ alookup img2 (AKey.kstr "tag")
                  = some (Value.vstr ref1.tag)
              ∧ (∀ k, k ≠ AKey.kstr "repository" → k ≠ AKey.kstr "tag" →
                  alookup img2 k = alookup img k)
              ∧ slookup (set ref1) "tag" = slookup m "tag")))
    ∧ (∀ (m : AMap) (r : Ref) (set : Ref → AMap),
        interpret_anymap parse m = some (r, set) → ∀ ref1 : Ref,
        ((set ref1).map Prod.fst = m.map Prod.fst)
        ∧ (∀ k, k ≠ AKey.kstr "image" → k ≠ AKey.kstr "tag" →
            alookup (set ref1) k = alookup m k)
        ∧ ((alookup (set ref1) (AKey.kstr "image")
                = some (Value.vstr ref1.name)
              ∧ alookup (set ref1) (AKey.kstr "tag")
                = some (Value.vstr ref1.tag)
              ∧ ∃ ts, alookup m (AKey.kstr "tag") = some (Value.vstr ts))
          ∨ (alookup (set ref1) (AKey.kstr "image")
                = some (Value.vstr (refString ref1))
              ∧ alookup (set ref1) (AKey.kstr "tag")
                = alookup m (AKey.kstr "tag"))
          ∨ (∃ img img2,
              alookup m (AKey.kstr "image") = some (Value.vamap img)
              ∧ alookup (set ref1) (AKey.kstr "image")
                  = some (Value.vamap img2)
              ∧ img2.map Prod.fst = img.map Prod.fst
              ∧ alookup img2 (AKey.kstr "repository")
                  = some (Value.vstr ref1.name)
              ∧ alookup img2 (AKey.kstr "tag")
                  = some (Value.vstr ref1.tag)
              ∧ (∀ k, k ≠ AKey.kstr "repository" → k ≠ AKey.kstr "tag" →
                  alookup img2 k = alookup img k)
              ∧ alookup (set ref1) (AKey.kstr "tag")
                  = alookup m (AKey.kstr "tag"))))
    ∧ (∀ (values : SMap) (d : Decl), d ∈ scanDecls parse values →
        ∀ ref1 : Ref,
        ((d.2.2 ref1).map Prod.fst = values.map Prod.fst)
        ∧ ∀ k, k ≠ d.1 → k ≠ "image" → k ≠ "tag" →
            slookup (d.2.2 ref1) k = slookup values k) := by
  refine ⟨fun m r set h ref1 => interpret_stringmap_frame parse m r set h ref1,
    fun m r set h ref1 => interpret_anymap_frame parse m r set h ref1, ?_⟩
  intro values d hd ref1
  unfold scanDecls at hd
  split at hd
  · rename_i ref setter heq
    rw [List.mem_singleton] at hd
    subst hd
    have h1 := interpret_stringmap_frame parse values ref setter heq ref1
    exact ⟨h1.1, fun k _ hki hkt => h1.2.1 k hki hkt⟩
  · rcases List.mem_filterMap.mp hd with ⟨a, _, hfa⟩
    split at hfa
    · rename_i m0 hk0
      rcases Option.map_eq_some'.mp hfa with ⟨p, _, hd2⟩
      subst hd2
      exact ⟨setKey_map_fst _ _ _ _ hk0,
        fun k hka _ _ => slookup_setKey_other _ _ _ _ hka⟩
    · rename_i m0 hk0
      rcases Option.map_eq_some'.mp hfa with ⟨p, _, hd2⟩
      subst hd2
      exact ⟨setKey_map_fst _ _ _ _ hk0,
        fun k hka _ _ => slookup_setKey_other _ _ _ _ hka⟩
    · exact Option.noConfusion hfa

/-- Witness for C8, exercising all three parts: the string-keyed split
form, the arbitrary-keyed split form, and a per-container declaration
of the scan, each leaving the key sequence and the unrelated sibling
binding intact. -/
theorem c8_frame_and_shape_witness :
    ((setterC8 ⟨"n", "g"⟩).map Prod.fst = valsC8.map Prod.fst
      ∧ slookup (setterC8 ⟨"n", "g"⟩) "persistence"
        = slookup valsC8 "persistence")
    ∧ ((asetterC8 ⟨"n", "g"⟩).map Prod.fst = avalsC8.map Prod.fst
      ∧ alookup (asetterC8 ⟨"n", "g"⟩) (AKey.kstr "persistence")
        = alookup avalsC8 (AKey.kstr "persistence"))
    ∧ ((declC8.2.2 ⟨"n", "g"⟩).map Prod.fst = valsC8scan.map Prod.fst
      ∧ slookup (declC8.2.2 ⟨"n", "g"⟩) "zzz" = slookup valsC8scan "zzz") :=
  ⟨⟨((c8_frame_and_shape parseRef).1 valsC8 ⟨"repo", "t"⟩ setterC8 rfl
        ⟨"n", "g"⟩).1,
      ((c8_frame_and_shape parseRef).1 valsC8 ⟨"repo", "t"⟩ setterC8 rfl
        ⟨"n", "g"⟩).2.1 "persistence" (by decide) (by decide)⟩,
    ⟨((c8_frame_and_shape parseRef).2.1 avalsC8 ⟨"repo", "t"⟩ asetterC8 rfl
        ⟨"n", "g"⟩).1,
      ((c8_frame_and_shape parseRef).2.1 avalsC8 ⟨"repo", "t"⟩ asetterC8 rfl
        ⟨"n", "g"⟩).2.1 (AKey.kstr "persistence") (by decide) (by decide)⟩,
    ⟨((c8_frame_and_shape parseRef).2.2 valsC8scan declC8
        (List.mem_singleton.mpr rfl) ⟨"n", "g"⟩).1,
      ((c8_frame_and_shape parseRef).2.2 valsC8scan declC8
        (List.mem_singleton.mpr rfl) ⟨"n", "g"⟩).2 "zzz" (by decide)
        (by decide) (by decide)⟩⟩

theorem containerOf_fst (parse : String → Option Ref)
    (look : String → Option Value) (a : String) (b : String × Ref)
    (h : containerOf parse look a = some b) : b.1 = a := by
  unfold containerOf at h
  split at h
  · rcases Option.map_eq_some'.mp h with ⟨r, _, hb⟩
    rw [← hb]
  · rcases Option.map_eq_some'.mp h with ⟨r, _, hb⟩
    rw [← hb]
  · exact Option.noConfusion h

/-- C9: with no direct-form match, the per-container scan covers every
top-level key: a key whose value is a string-keyed or arbitrary-keyed
sub-mapping that interprets as an image declaration contributes exactly
the declaration named by that key; a sub-mapping of either encoding
that interprets as nothing contributes nothing; and a sub-mapping of
either encoding with no `image` key contributes nothing no matter what
is nested more deeply inside it. -/
theorem c9_per_container_scan (parse : String → Option Ref) (values : SMap)
    (hdirect : interpret_stringmap parse values = none) :
    (∀ (k : String) (m : SMap) (p : Ref × (Ref → SMap)),
        slookup values k = some (Value.vsmap m) →
        interpret_stringmap parse m = some p →
        (k, p.1) ∈ Containers parse values)
    ∧ (∀ (k : String) (m : AMap) (p : Ref × (Ref → AMap)),
        slookup values k = some (Value.vamap m) →
        interpret_anymap parse m = some p →
        (k, p.1) ∈ Containers parse values)
    ∧ (∀ (k : String) (m : SMap) (r : Ref),
        slookup values k = some (Value.vsmap m) →
        interpret_stringmap parse m = none →
        (k, r) ∉ Containers parse values)
    ∧ (∀ (k : String) (m : SMap) (r : Ref),
        slookup values k = some (Value.vsmap m) →
        slookup m "image" = none →
        (k, r) ∉ Containers parse values)
    ∧ (∀ (k : String) (m : AMap) (r : Ref),
        slookup values k = some (Value.vamap m) →
        interpret_anymap parse m = none →
        (k, r) ∉ Containers parse values)
    ∧ (∀ (k : String) (m : AMap) (r : Ref),
        slookup values k = some (Value.vamap m) →
        alookup m (AKey.kstr "image") = none →
        (k, r) ∉ Containers parse values) := by
  have hro : refOf_smap parse (slookup values "image") (slookup values "tag")
      = none := by
    have h1 := interpret_stringmap_fst parse values
    rw [hdirect] at h1
    exact h1.symm
  have hC : Containers parse values
      = (sorted_keys values).filterMap (containerOf parse (slookup values)) := by
    rw [Containers_eq_spec]
    unfold ContainersSpec
    rw [hro]
  have hnm : ∀ (k : String) (m : SMap) (r : Ref),
      slookup values k = some (Value.vsmap m) →
      interpret_stringmap parse m = none →
      (k, r) ∉ Containers parse values := by
    intro k m r hk hi hmem
    rw [hC] at hmem
    rcases List.mem_filterMap.mp hmem with ⟨a, _, hca⟩
    obtain rfl : k = a := containerOf_fst _ _ _ _ hca
    have hca2 : (refOf_smap parse (slookup m "image")
        (slookup m "tag")).map (fun rr => (k, rr)) = some (k, r) := by
      have hca3 := hca
      unfold containerOf at hca3
      rw [hk] at hca3
      exact hca3
    have h2 := interpret_stringmap_fst parse m
    rw [hi] at h2
    rw [← h2] at hca2
    simp at hca2
  have hnma : ∀ (k : String) (m : AMap) (r : Ref),
      slookup values k = some (Value.vamap m) →
      interpret_anymap parse m = none →
      (k, r) ∉ Containers parse values := by
    intro k m r hk hi hmem
    rw [hC] at hmem
    rcases List.mem_filterMap.mp hmem with ⟨a, _, hca⟩
    obtain rfl : k = a := containerOf_fst _ _ _ _ hca
    have hca2 : (refOf_amap parse (alookup m (AKey.kstr "image"))
        (alookup m (AKey.kstr "tag"))).map (fun rr => (k, rr))
        = some (k, r) := by
      have hca3 := hca
      unfold containerOf at hca3
      rw [hk] at hca3
      exact hca3
    have h2 := interpret_anymap_fst parse m
    rw [hi] at h2
    rw [← h2] at hca2
    simp at hca2
  refine ⟨?_, ?_, hnm, ?_, hnma, ?_⟩
  · intro k m p hk hi
    rw [hC]
    refine List.mem_filterMap.mpr ⟨k, mem_sorted_keys.mpr (slookup_mem_keys hk), ?_⟩
    unfold containerOf
    rw [hk]
    show (refOf_smap parse (slookup m "image") (slookup m "tag")).map
      (fun r => (k, r)) = some (k, p.1)
    have h2 := interpret_stringmap_fst parse m
    rw [hi] at h2
    rw [← h2]
    rfl
  · intro k m p hk hi
    rw [hC]
    refine List.mem_filterMap.mpr ⟨k, mem_sorted_keys.mpr (slookup_mem_keys hk), ?_⟩
    unfold containerOf
    rw [hk]
    show (refOf_amap parse (alookup m (AKey.kstr "image"))
        (alookup m (AKey.kstr "tag"))).map (fun r => (k, r)) = some (k, p.1)
    have h2 := interpret_anymap_fst parse m
    rw [hi] at h2
    rw [← h2]
    rfl
  · intro k m r hk h4
    refine hnm k m r hk ?_
    unfold interpret_stringmap
    rw [h4]
  · intro k m r hk h4
    refine hnma k m r hk ?_
    unfold interpret_anymap
    rw [h4]

/-- Witness for C9: both matching sub-maps are reported under their
keys; the non-matching sub-maps and the too-deeply-nested ones, in
either encoding, are not. -/
theorem c9_per_container_scan_witness :
    ("db", (⟨"r", "t"⟩ : Ref)) ∈ Containers parseRef valsC9
    ∧ ("any", (⟨"q", "u"⟩ : Ref)) ∈ Containers parseRef valsC9
    ∧ ("other", (⟨"x", "y"⟩ : Ref)) ∉ Containers parseRef valsC9
    ∧ ("deep", (⟨"z", "9"⟩ : Ref)) ∉ Containers parseRef valsC9
    ∧ ("aother", (⟨"x", "y"⟩ : Ref)) ∉ Containers parseRef valsC9
    ∧ ("adeep", (⟨"z", "9"⟩ : Ref)) ∉ Containers parseRef valsC9 :=
  ⟨(c9_per_container_scan parseRef valsC9 rfl).1 "db" mDbC9 pDbC9 rfl rfl,
    (c9_per_container_scan parseRef valsC9 rfl).2.1 "any" mAnyC9 pAnyC9
      rfl rfl,
    (c9_per_container_scan parseRef valsC9 rfl).2.2.1 "other"
      [("not", Value.vstr "x")] ⟨"x", "y"⟩ rfl rfl,
    (c9_per_container_scan parseRef valsC9 rfl).2.2.2.1 "deep"
      [("b", Value.vsmap [("image", Value.vstr "z:9")])] ⟨"z", "9"⟩ rfl rfl,
    (c9_per_container_scan parseRef valsC9 rfl).2.2.2.2.1 "aother"
      [(AKey.kstr "not", Value.vstr "x")] ⟨"x", "y"⟩ rfl rfl,
    (c9_per_container_scan parseRef valsC9 rfl).2.2.2.2.2 "adeep"
      [(AKey.kstr "b", Value.vamap [(AKey.kstr "image", Value.vstr "z:9")])]
      ⟨"z", "9"⟩ rfl rfl⟩

theorem convS_lookup (l : List (String × Value)) (k : String) :
    alookup (convS l) (AKey.kstr k) = (slookup l k).map convVal := by
  induction l with
  | nil => rfl
  | cons kv rest ih =>
      obtain ⟨k1, v1⟩ := kv
      by_cases h : k1 = k <;> simp [convS, alookup, slookup, h, ih]

theorem convA_lookup (l : AMap) (k : AKey) :
    alookup (convA l) k = (alookup l k).map convVal := by
  induction l with
  | nil => rfl
  | cons kv rest ih =>
      obtain ⟨k1, v1⟩ := kv
      by_cases h : k1 = k <;> simp [convA, alookup, h, ih]

theorem convS_setKey (l : List (String × Value)) (k : String) (v : Value) :
    convS (setKey l k v) = asetKey (convS l) (AKey.kstr k) (convVal v) := by
  induction l with
  | nil => rfl
  | cons kv rest ih =>
      obtain ⟨k1, v1⟩ := kv
      by_cases h : k1 = k <;> simp [convS, setKey, asetKey, h, ih]

theorem convA_asetKey (l : AMap) (k : AKey) (v : Value) :
    convA (asetKey l k v) = asetKey (convA l) k (convVal v) := by
  induction l with
  | nil => rfl
  | cons kv rest ih =>
      obtain ⟨k1, v1⟩ := kv
      by_cases h : k1 = k <;> simp [convA, asetKey, h, ih]

theorem convVal_eq_vstr (a : Value) (s : String) :
    convVal a = Value.vstr s ↔ a = Value.vstr s := by
  cases a <;> simp [convVal]

theorem interpret_anymap_convS (parse : String → Option Ref) (m : SMap) :
    interpret_anymap parse (convS m)
      = (interpret_stringmap parse m).map
          (fun p => (p.1, fun ref => convS (p.2 ref))) := by
  unfold interpret_anymap interpret_stringmap
  rw [convS_lookup m "image", convS_lookup m "tag"]
  rcases h1 : slookup m "image" with _ | v
  · rfl
  · cases v with
    | vstr s =>
        simp only [Option.map_some', convVal]
        repeat' split
        all_goals simp_all [convVal, convVal_eq_vstr, convS_setKey]
    | vsmap l =>
        simp only [Option.map_some', convVal]
        rw [convS_lookup l "repository", convS_lookup l "tag"]
        repeat' split
        all_goals simp_all [convVal, convVal_eq_vstr, convS_setKey, convA_asetKey]
    | vamap l =>
        simp only [Option.map_some', convVal]
        rw [convA_lookup l (AKey.kstr "repository"),
          convA_lookup l (AKey.kstr "tag")]
        repeat' split
        all_goals simp_all [convVal, convVal_eq_vstr, convS_setKey, convA_asetKey]
    | vother n =>
        simp only [Option.map_some', convVal]
        rfl

/-- C7 counterexample: the inner encoding is not free — an
arbitrary-keyed mapping whose `image` value is a string-keyed
{repository, tag} object is not recognized (the source's
`interpret_anymap` has no `map[string]interface{}` case for the inner
object), although the structurally identical string-keyed encoding is
recognized, both at the interpreter and at the scan level. -/
theorem c7_inner_encoding_counterexample :
    interpret_anymap parseRef
      [(AKey.kstr "image",
        Value.vsmap
          [("repository", Value.vstr "repo"), ("tag", Value.vstr "t")])]
      = none
    ∧ (interpret_stringmap parseRef
        [("image",
          Value.vsmap
            [("repository", Value.vstr "repo"),
             ("tag", Value.vstr "t")])]).map Prod.fst
      = some ⟨"repo", "t"⟩
    ∧ Containers parseRef
        [("db", Value.vamap
          [(AKey.kstr "image",
            Value.vsmap
              [("repository", Value.vstr "repo"),
               ("tag", Value.vstr "t")])])] = []
    ∧ Containers parseRef
        [("db", Value.vsmap
          [("image",
            Value.vsmap
              [("repository", Value.vstr "repo"),
               ("tag", Value.vstr "t")])])] = [("db", ⟨"repo", "t"⟩)] :=
  ⟨rfl, rfl, rfl, rfl⟩

/-- C7 (amended): for a string-keyed mapping and its canonical
generic-markup re-encoding (`convS` — nested mappings scalar-keyed, as a
generic YAML decode produces), the two interpreters recognize the same
declarations: same reference, and setters with the same write-back
effect (the re-encoded setter's output is the re-encoding of the
string-keyed setter's output); a non-match in one is a non-match in the
other. -/
theorem c7_encoding_equivalence (parse : String → Option Ref) (m : SMap) :
    ((interpret_anymap parse (convS m)).map Prod.fst
      = (interpret_stringmap parse m).map Prod.fst)
    ∧ (∀ p : Ref × (Ref → SMap), interpret_stringmap parse m = some p →
        interpret_anymap parse (convS m)
          = some (p.1, fun ref => convS (p.2 ref)))
    ∧ (interpret_anymap parse (convS m) = none →
        interpret_stringmap parse m = none) := by
  have h := interpret_anymap_convS parse m
  refine ⟨?_, ?_, ?_⟩
  · rw [h, Option.map_map]
    rfl
  · intro p hp
    rw [h, hp]
    rfl
  · intro hn
    rw [h] at hn
    cases hi : interpret_stringmap parse m with
    | none => rfl
    | some p =>
        rw [hi] at hn
        exact Option.noConfusion hn

/-- Witness for C7 (amended) at a concrete nested-object tree: the
re-encoded tree is interpreted to the same reference, with the
re-encoded setter. -/
theorem c7_encoding_equivalence_witness :
    ((interpret_anymap parseRef (convS valsC7)).map Prod.fst
      = (interpret_stringmap parseRef valsC7).map Prod.fst)
    ∧ interpret_anymap parseRef (convS valsC7)
      = some ((⟨"repo", "t"⟩ : Ref), fun ref => convS (setterC7 ref)) :=
  ⟨(c7_encoding_equivalence parseRef valsC7).1,
    (c7_encoding_equivalence parseRef valsC7).2.1 (⟨"repo", "t"⟩, setterC7)
      rfl⟩
